import Mathlib

/-!
Verification development for the `nercone-archiver` repository
(`src/nercone_archiver/manager.py` and `src/nercone_archiver/__main__.py`).

The core of the program is the `ArchiveManager` class: a session object that
owns a temporary staging directory, imports archives into it, mutates it
(add / remove / list), and exports it to an archive again.  This file gives a
shallow embedding of that core:

* Python string/path operations used by the manager (`str.lower`,
  `os.path.basename`, `pathlib.Path.suffix`, `os.path.normpath`,
  `str.lstrip`, `str.endswith`, substring tests) are modelled on `List Char`,
  restricted to ASCII case mapping (all strings the manager compares against
  are ASCII).
* The staging directory is modelled as a flat, path-addressed file tree
  `Fs`: a list of (path, bytes) regular files plus a list of directory
  paths, both relative to the staging root.  This mirrors exactly the
  operations the source performs on it: `os.walk` enumerates the regular
  files, extraction writes one entry at a time creating parent directories,
  `rglob` enumerates every descendant path.
* Third-party codec behaviour (zipfile / tarfile / py7zr / rarfile / pyzipper)
  is abstracted into an environment `Env`: availability flags for the optional
  providers, an existence predicate for archive files, and a decode function
  producing either an entry list or a Python-level error.  Everything the
  repository's own code does around those calls (format dispatch, error
  classification, state updates, the keyword arguments it passes) is modelled
  faithfully.
* Python exceptions become the `PyError` structure (kind + message); the
  manager's error classification (`"password" in str(e).lower() or
  "encrypted" in str(e).lower() or isinstance(e, RuntimeError)`) is the
  function `pwRelated`.
-/

namespace NerconeArchiver

/-! ## ASCII model of the Python string primitives used by `manager.py` -/

/-- The ASCII upper-to-lower case table. -/
def lowerPairs : List (Char × Char) :=
  [('A', 'a'), ('B', 'b'), ('C', 'c'), ('D', 'd'), ('E', 'e'), ('F', 'f'),
   ('G', 'g'), ('H', 'h'), ('I', 'i'), ('J', 'j'), ('K', 'k'), ('L', 'l'),
   ('M', 'm'), ('N', 'n'), ('O', 'o'), ('P', 'p'), ('Q', 'q'), ('R', 'r'),
   ('S', 's'), ('T', 't'), ('U', 'u'), ('V', 'v'), ('W', 'w'), ('X', 'x'),
   ('Y', 'y'), ('Z', 'z')]

/-- ASCII case folding of one character; model of what Python's `str.lower`
does on the ASCII strings the manager works with. -/
def lowerChar (c : Char) : Char := (lowerPairs.lookup c).getD c

/-- Model of Python `str.lower()` on ASCII data. -/
def strLower (s : String) : String := ⟨s.data.map lowerChar⟩

/-- Split a character list at `'/'` separators, keeping empty components,
like Python's `str.split('/')`.  The result is always non-empty. -/
def splitSlash : List Char → List (List Char)
  | [] => [[]]
  | c :: cs =>
    match splitSlash cs with
    | [] => [[]]
    | cur :: rest => if c = '/' then [] :: cur :: rest else (c :: cur) :: rest

/-- Model of `os.path.basename` on POSIX: everything after the last `'/'`. -/
def basenameStr (p : String) : String := ⟨(splitSlash p.data).getLastD []⟩

/-- The parsed components of a `pathlib.PurePosixPath`: raw `'/'`-separated
components with empty and `"."` components dropped (`".."` is kept). -/
def plParts (p : String) : List (List Char) :=
  (splitSlash p.data).filter (fun c => !(c == []) && !(c == ['.']))

/-- Model of `pathlib.Path(p).name`: the last parsed component. -/
def plNameChars (p : String) : List Char := (plParts p).getLastD []

/-- Model of the `pathlib` suffix computation on a file name `n`:
`i = n.rfind('.')`; return `n[i:]` if `0 < i < len(n) - 1`, else `''`.
Implemented on the reversed character list. -/
def suffixChars (n : List Char) : List Char :=
  let r := n.reverse
  let j := r.findIdx (fun c => c == '.')
  if 0 < j ∧ j < r.length - 1 then (r.take (j + 1)).reverse else []

/-- Model of `pathlib.Path(p).suffix`. -/
def pathSuffix (p : String) : String := ⟨suffixChars (plNameChars p)⟩

/-- Model of Python `s.endswith(t)`. -/
def strEndsWith (s t : String) : Bool := t.data.isSuffixOf s.data

/-- Model of Python `needle in hay` on strings. -/
def containsSub (needle : List Char) : List Char → Bool
  | [] => needle.isPrefixOf []
  | c :: t => needle.isPrefixOf (c :: t) || containsSub needle t

/-- `ArchiveManager._get_format`:

```
name = os.path.basename(path).lower()
if name.endswith('.tar.gz'): return 'tar.gz'
if name.endswith('.tar.xz'): return 'tar.xz'
if name.endswith('.tgz'): return 'tar.gz'
return Path(path).suffix[1:].lower()
```
-/
def getFormat (path : String) : String :=
  let name := strLower (basenameStr path)
  if strEndsWith name ".tar.gz" then "tar.gz"
  else if strEndsWith name ".tar.xz" then "tar.xz"
  else if strEndsWith name ".tgz" then "tar.gz"
  else strLower ⟨(suffixChars (plNameChars path)).drop 1⟩

/-- The closed enumeration of format tags named by the specification. -/
inductive FormatTag where
  | zip | tar | targz | tarxz | sevenz | rar | gz | xz | unknown
deriving DecidableEq, Repr

/-- Canonical reading of a raw extension/format string as a `FormatTag`:
the strings the dispatch code recognises map to their tag, anything else
(arbitrary extensions, the empty string) counts as `unknown`. -/
def toTag (s : String) : FormatTag :=
  if s = "zip" then .zip else if s = "tar" then .tar
  else if s = "tar.gz" then .targz else if s = "tar.xz" then .tarxz
  else if s = "7z" then .sevenz else if s = "rar" then .rar
  else if s = "gz" then .gz else if s = "xz" then .xz else .unknown

/-- Modelled from the spec: `resolve(name) -> FormatTag`, a pure,
case-insensitive function of the final path segment; composite two-part
suffixes (`.tar.gz`, `.tgz` → tar.gz, `.tar.xz`) are checked first, then the
last single extension is mapped to its tag; `unknown` if no rule matches. -/
def resolveSpec (seg : String) : FormatTag :=
  let n := strLower seg
  if strEndsWith n ".tar.gz" || strEndsWith n ".tgz" then .targz
  else if strEndsWith n ".tar.xz" then .tarxz
  else toTag ⟨(suffixChars (strLower seg).data).drop 1⟩

/-! ## The staging area

`ArchiveManager` owns `self.temp_dir`, an initially empty temporary
directory.  We model its contents as a flat, path-addressed tree: paths are
lists of segments relative to the staging root, regular files carry byte
contents (bytes as `Nat`), directories are bare paths.  The root itself is
always present and is not listed in `dirs`. -/

/-- The staging directory contents: regular files with their bytes, and
(non-root) directories. -/
structure Fs where
  files : List (List String × List Nat)
  dirs : List (List String)
deriving DecidableEq, Repr

/-- A freshly created staging directory (`tempfile.mkdtemp()`). -/
def Fs.empty : Fs := ⟨[], []⟩

/-- Content of the regular file at `p`, if any. -/
def fileAt (fs : Fs) (p : List String) : Option (List Nat) := fs.files.lookup p

/-- Is `p` a directory?  The staging root `[]` always is. -/
def isDirB (fs : Fs) (p : List String) : Bool := p.isEmpty || decide (p ∈ fs.dirs)

/-- Does the path `p` exist (as the root, a file, or a directory)? -/
def existsAtB (fs : Fs) (p : List String) : Bool :=
  p.isEmpty || (fileAt fs p).isSome || decide (p ∈ fs.dirs)

/-- The proper, non-root ancestors of a path: `p.take 1 … p.take (len-1)`. -/
def ancestors (p : List String) : List (List String) :=
  (List.range p.length).filterMap (fun n => if n = 0 then none else some (p.take n))

/-- Append each of `new` to `ds` unless already present. -/
def insertDirs (ds : List (List String)) (new : List (List String)) : List (List String) :=
  new.foldl (fun acc d => if d ∈ acc then acc else acc ++ [d]) ds

/-- Overwrite the file at `p` if present, else append it. -/
def setFile (files : List (List String × List Nat)) (p : List String) (c : List Nat) :
    List (List String × List Nat) :=
  if (files.lookup p).isSome then
    files.map (fun pc => if pc.1 = p then (p, c) else pc)
  else files ++ [(p, c)]

/-- Write one archive entry into the staging area, creating parent
directories, as a codec's per-member `extract` does.  Fails (`none`) when the
OS call would raise: the entry path is empty, a file sits where a parent
directory is needed, or the target path is an existing directory. -/
def writeEntry (fs : Fs) (p : List String) (c : List Nat) : Option Fs :=
  if p.isEmpty then none
  else if (ancestors p).any (fun a => (fileAt fs a).isSome) then none
  else if isDirB fs p then none
  else some ⟨setFile fs.files p c, insertDirs fs.dirs (ancestors p)⟩

/-- Extract a list of entries into the staging area, one at a time, in
order — the per-member loops of `_import_zip_with_progress`,
`_import_tar_with_progress`, and the 7z/rar import branches. -/
def extractAll (fs : Fs) (es : List (List String × List Nat)) : Option Fs :=
  es.foldlM (fun f e => writeEntry f e.1 e.2) fs

/-! ## Archive-relative path resolution

`ArchiveManager._resolve_path`:

```
safe_path = os.path.normpath(path_in_archive).lstrip('/\\')
full_path = Path(self.temp_dir) / safe_path
if not str(full_path.resolve()).startswith(str(Path(self.temp_dir).resolve())):
    pass
return full_path
```
-/

/-- The component-processing loop of POSIX `os.path.normpath`: skip empty and
`"."` components; on `".."` either keep it (relative path with nothing to pop,
or on top of another `".."`), pop the previous component, or drop it (at the
root of an absolute path). -/
def normSegs (isAbs : Bool) (comps : List (List Char)) : List (List Char) :=
  comps.foldl (fun acc c =>
    if c == [] || c == ['.'] then acc
    else if c == ['.', '.'] then
      if (!isAbs && acc == []) || (acc.getLast? == some ['.', '.']) then acc ++ [c]
      else if acc == [] then acc
      else acc.dropLast
    else acc ++ [c]) []

/-- Model of POSIX `os.path.normpath`. -/
def normpathStr (p : String) : String :=
  let isAbs : Bool := match p.data with | '/' :: _ => true | _ => false
  let ns := normSegs isAbs (splitSlash p.data)
  let joined := String.intercalate "/" (ns.map (fun c => String.mk c))
  let res := (if isAbs then "/" else "") ++ joined
  if res == "" then "." else res

/-- Model of `str.lstrip('/\\')`. -/
def lstripSlashes (s : String) : String :=
  ⟨s.data.dropWhile (fun c => c == '/' || c == '\\')⟩

/-- The archive-relative resolution the manager applies to caller paths:
`os.path.normpath`, `lstrip('/\\')`, then the `pathlib` join under the
staging root.  The result may still begin with `".."` segments — the source
computes but never enforces containment. -/
def resolveRel (s : String) : List String :=
  (plParts (lstripSlashes (normpathStr s))).map (fun c => String.mk c)

/-- Does a resolved archive-relative path still contain `".."` (and hence
point outside the staging root, which this model does not represent)? -/
def hasDotDot (p : List String) : Bool := decide (".." ∈ p)

/-- Lexical resolution of an absolute path given as segments, as
`Path.resolve()` performs on the (symlink-free) staging paths. -/
def lexResolve (segs : List String) : List String :=
  segs.foldl (fun acc c =>
    if c == "." || c == "" then acc
    else if c == ".." then acc.dropLast
    else acc ++ [c]) []

/-- Render an absolute path from its segments. -/
def renderAbs (segs : List String) : String := "/" ++ String.intercalate "/" segs

/-- Model of Python `s.startswith(t)`. -/
def strStartsWith (s t : String) : Bool := t.data.isPrefixOf s.data

/-- `full_path = Path(self.temp_dir) / safe_path` for staging root
`tempDir` (absolute, given as segments). -/
def resolvePathJoined (tempDir : List String) (p : String) : List String :=
  tempDir ++ resolveRel p

/-- The containment check `_resolve_path` computes:
`str(full_path.resolve()).startswith(str(Path(self.temp_dir).resolve()))`. -/
def containmentCheck (tempDir : List String) (p : String) : Bool :=
  strStartsWith (renderAbs (lexResolve (resolvePathJoined tempDir p)))
    (renderAbs (lexResolve tempDir))

/-- `ArchiveManager._resolve_path`: the check's result feeds an
`if …: pass` statement, so the joined path is returned either way. -/
def resolvePathModel (tempDir : List String) (p : String) : List String :=
  let full := resolvePathJoined tempDir p
  if containmentCheck tempDir p then full else full

/-! ## Errors, session state, environment -/

/-- The Python exception classes that appear in the manager. -/
inductive ErrKind where
  | typeErr | valueErr | runtimeErr | fileNotFound | importErr | osErr
deriving DecidableEq, Repr

/-- A raised Python exception: its class and its `str(e)` message. -/
structure PyError where
  kind : ErrKind
  msg : String
deriving DecidableEq, Repr

/-- The manager's password-related classification of an import failure:
`"password" in str(e).lower() or "encrypted" in str(e).lower() or
isinstance(e, RuntimeError)`. -/
def pwRelated (e : PyError) : Bool :=
  containsSub "password".data (strLower e.msg).data ||
  containsSub "encrypted".data (strLower e.msg).data ||
  (e.kind == .runtimeErr)

/-- Python truthiness of an optional string (`None` and `""` are falsy). -/
def truthyStr : Option String → Bool
  | none => false
  | some s => !(s == "")

/-- The mutable state of one `ArchiveManager` session. -/
structure SessionState where
  staging : Fs
  passwordForExport : Option String
  importedArchivePath : Option String
  isEncryptedImport : Bool
deriving DecidableEq, Repr

/-- A fresh session (`ArchiveManager.__init__`). -/
def SessionState.init : SessionState := ⟨Fs.empty, none, none, false⟩

/-- Outcome of handing an archive to the external codec libraries: the
decoded entry list, or the Python error the library raised (bad password,
corrupt data, …). -/
inductive DecodeResult where
  | ok (entries : List (List String × List Nat))
  | err (e : PyError)

/-- The external world the manager runs in: which optional codec providers
are importable, which archive files exist, and what decoding an archive
with a given password yields. -/
structure Env where
  py7zrAvail : Bool
  rarfileAvail : Bool
  pyzipperAvail : Bool
  archiveExists : String → Bool
  decode : String → Option String → DecodeResult

/-! ## `import_archive` -/

/-- Decode an archive and extract its entries into the current staging area
(imports do not clear previously staged content).  An extraction conflict
surfaces as an OS error, as the per-member `extract` call would raise. -/
def runDecode (env : Env) (fs : Fs) (path : String) (pw : Option String) :
    Except PyError Fs :=
  match env.decode path pw with
  | .ok entries =>
    match extractAll fs entries with
    | some fs' => .ok fs'
    | none => .error ⟨.osErr, "extraction failed"⟩
  | .err e => .error e

/-- The `try` block of `import_archive`: dispatch on the resolved format
tag to the matching codec branch; unknown tags raise `ValueError`, the 7z
and rar branches require their optional providers. -/
def importDispatch (env : Env) (fs : Fs) (path : String) (pw : Option String) :
    Except PyError Fs :=
  let fmt := getFormat path
  if fmt == "zip" then
    runDecode env fs path pw
  else if fmt == "tar" || fmt == "tar.gz" || fmt == "gz" ||
      fmt == "tar.xz" || fmt == "xz" then
    runDecode env fs path pw
  else if fmt == "7z" then
    if env.py7zrAvail then runDecode env fs path pw
    else .error ⟨.importErr, "py7zr is not installed."⟩
  else if fmt == "rar" then
    if env.rarfileAvail then runDecode env fs path pw
    else .error ⟨.importErr, "rarfile is not installed."⟩
  else .error ⟨.valueErr, "Unsupported import format: " ++ fmt⟩

/-- `ArchiveManager.import_archive`.  The existence check runs before
anything else; the source-archive identity is recorded before format
dispatch; every failure raised inside the `try` block passes through the
password-related classification, which sets `_is_encrypted_import` (the
extra flag-setting inside `_import_zip_with_progress` only fires on a
`RuntimeError`, which the outer classifier already catches, so it is
subsumed here). -/
def importArchive (env : Env) (st : SessionState) (path : String)
    (pw : Option String) : SessionState × Except PyError Unit :=
  if env.archiveExists path = false then
    (st, .error ⟨.fileNotFound, "Archive not found: " ++ path⟩)
  else
    let st1 := { st with importedArchivePath := some path }
    match importDispatch env st.staging path pw with
    | .ok fs' => ({ st1 with staging := fs' }, .ok ())
    | .error e =>
      (if pwRelated e then { st1 with isEncryptedImport := true } else st1, .error e)

/-! ## `export` -/

/-- An emitted archive: its entry list and whether it is encrypted. -/
structure Archive where
  entries : List (List String × List Nat)
  encrypted : Bool
deriving DecidableEq, Repr

/-- `ArchiveManager._export_zip_with_progress`.  The writer class and the
`encryption=` keyword are chosen from the password and pyzipper
availability; `zipfile.ZipFile` (chosen whenever the AES path is not taken)
does not accept an `encryption` keyword argument, so constructing it raises
`TypeError` before any entry is written.  The first component collects the
messages logged at `WARN` level. -/
def exportZip (pyzipperAvail : Bool) (pw : Option String)
    (fileList : List (List String × List Nat)) :
    List String × Except PyError Archive :=
  if truthyStr pw && pyzipperAvail then
    ([], .ok ⟨fileList, true⟩)
  else if truthyStr pw then
    (["pyzipper not installed. Creating normal zip."],
     .error ⟨.typeErr, "ZipFile.__init__() got an unexpected keyword argument 'encryption'"⟩)
  else
    ([], .error ⟨.typeErr, "ZipFile.__init__() got an unexpected keyword argument 'encryption'"⟩)

/-- `ArchiveManager.export`.  The format is the override if truthy, else
resolved from the output name; `os.walk` enumerates the regular files (and
only the regular files) of the staging area with root-relative `arcname`s;
the tar family writes them with compression chosen by the tag; 7z requires
py7zr and honours the password; anything else raises `ValueError`. -/
def exportArchive (env : Env) (st : SessionState) (outName : String)
    (fmtOverride : Option String) : List String × Except PyError Archive :=
  let fmt := match fmtOverride with
    | some f => if f == "" then getFormat outName else f
    | none => getFormat outName
  let fileList := st.staging.files
  if fmt == "zip" then
    exportZip env.pyzipperAvail st.passwordForExport fileList
  else if fmt == "tar" || fmt == "tar.gz" || fmt == "tar.xz" then
    ([], .ok ⟨fileList, false⟩)
  else if fmt == "7z" then
    if env.py7zrAvail then ([], .ok ⟨fileList, truthyStr st.passwordForExport⟩)
    else ([], .error ⟨.importErr, "py7zr is not installed."⟩)
  else
    ([], .error ⟨.valueErr, "Unsupported export format: " ++ fmt ++ " or implementation pending."⟩)

/-! ## `encrypt` / `decrypt` -/

/-- `ArchiveManager.encrypt`: store a non-empty export password. -/
def encrypt (st : SessionState) (pw : String) : SessionState × Except PyError Unit :=
  if pw == "" then (st, .error ⟨.valueErr, "Password must be a non-empty string."⟩)
  else ({ st with passwordForExport := some pw }, .ok ())

/-- The message of the `RuntimeError` raised by `decrypt` when its
preconditions fail. -/
def noRetryMsg : String :=
  "Decrypt with password can only be used after a failed import of an encrypted archive."

/-- `ArchiveManager.decrypt`.  With a truthy password: requires a recorded
source archive and the known-encrypted flag, removes every top-level item of
the staging directory (a complete wipe), re-imports the recorded archive
with the password, and clears the flag only when that import returns
normally.  With a falsy password: clears the export password (a no-op with
a notice when none was set). -/
def decrypt (env : Env) (st : SessionState) (pw : Option String) :
    SessionState × Except PyError Unit :=
  if truthyStr pw then
    if truthyStr st.importedArchivePath = false ∨ st.isEncryptedImport = false then
      (st, .error ⟨.runtimeErr, noRetryMsg⟩)
    else
      match st.importedArchivePath with
      | some src =>
        let r := importArchive env { st with staging := Fs.empty } src pw
        match r.2 with
        | .ok _ => ({ r.1 with isEncryptedImport := false }, .ok ())
        | .error e => (r.1, .error e)
      | none => (st, .error ⟨.runtimeErr, noRetryMsg⟩)
  else
    match st.passwordForExport with
    | some _ => ({ st with passwordForExport := none }, .ok ())
    | none => (st, .ok ())

/-! ## `add` -/

/-- A source for `add`: a regular file (its base name and bytes) or a
directory (its base name, the regular files of its subtree as relative
paths with bytes, and the subtree's directories as relative paths). -/
inductive Source where
  | sfile (name : String) (content : List Nat)
  | sdir (name : String) (subfiles : List (List String × List Nat))
      (subdirs : List (List String))

/-- `Path.mkdir(parents=True, exist_ok=True)`: create `p` and any missing
ancestors; fails when a regular file occupies `p` or an ancestor. -/
def mkdirParents (fs : Fs) (p : List String) : Option Fs :=
  let needed := ancestors p ++ (if p == [] then [] else [p])
  if needed.any (fun a => (fileAt fs a).isSome) then none
  else some { fs with dirs := insertDirs fs.dirs needed }

/-- `shutil.copy(source, target)` for a regular-file source: overwrites an
existing regular file; fails when the target is an existing directory or
its parent directory does not exist. -/
def copyFileTo (fs : Fs) (target : List String) (content : List Nat) : Option Fs :=
  if isDirB fs target then none
  else if !(isDirB fs target.dropLast) then none
  else some { fs with files := setFile fs.files target content }

/-- `ArchiveManager.add`.  A missing source raises `FileNotFoundError`.  A
directory source is copied by `shutil.copytree` to
`resolve(dest)/<source name>` (which must not already exist).  A file
source: the destination resolves through `_resolve_path`; if the resolved
destination is an existing directory or the raw destination ends with
`'/'`, the target directory is the destination itself, otherwise its
parent; that directory is created with `mkdir(parents=True, exist_ok=True)`
and the copy target is `final_dest / source.name` when `final_dest` is a
directory, else `final_dest` itself.  (Destinations whose resolution
escapes the staging root address the world outside the model; the theorems
below restrict to non-escaping destinations.) -/
def addOp (fs : Fs) (src : Option Source) (destArc : String) :
    Fs × Except PyError Unit :=
  match src with
  | none => (fs, .error ⟨.fileNotFound, "Source not found"⟩)
  | some (.sdir name subfiles subdirs) =>
    let destPath := resolveRel destArc
    let finalDest := destPath ++ [name]
    if existsAtB fs finalDest then (fs, .error ⟨.osErr, "File exists"⟩)
    else
      match mkdirParents fs finalDest with
      | none => (fs, .error ⟨.osErr, "mkdir failed"⟩)
      | some fs1 =>
        let fs2 : Fs :=
          { files := subfiles.foldl (fun acc e => setFile acc (finalDest ++ e.1) e.2) fs1.files,
            dirs := insertDirs fs1.dirs (subdirs.map (fun d => finalDest ++ d)) }
        (fs2, .ok ())
  | some (.sfile name content) =>
    let destPath := resolveRel destArc
    let finalDest :=
      if isDirB fs destPath || strEndsWith destArc "/" then destPath
      else destPath.dropLast
    match mkdirParents fs finalDest with
    | none => (fs, .error ⟨.osErr, "mkdir failed"⟩)
    | some fs1 =>
      let target := if isDirB fs1 finalDest then finalDest ++ [name] else finalDest
      match copyFileTo fs1 target content with
      | none => (fs, .error ⟨.osErr, "copy failed"⟩)
      | some fs2 => (fs2, .ok ())

/-! ## `list_files` -/

/-- Render an archive-relative segment path the way
`str(p.relative_to(self.temp_dir))` does. -/
def renderRel (p : List String) : String := String.intercalate "/" p

/-- Every existing non-root path of the staging area. -/
def allPaths (fs : Fs) : List (List String) := fs.files.map Prod.fst ++ fs.dirs

/-- Python's string ordering (code-point lexicographic), used by
`sorted(paths)`. -/
def pyStrLe (a b : String) : Prop := a.data ≤ b.data

instance : DecidableRel pyStrLe := fun a b => inferInstanceAs (Decidable (a.data ≤ b.data))

/-- `ArchiveManager.list_files`: resolve the argument (default `'.'`); if
the resolved path exists, return the root-relative rendering of every
strict descendant (`rglob('*')` lists files and directories alike),
sorted; otherwise return the empty list.  (Arguments resolving outside the
staging root address the world outside the model and are excluded by the
theorems below.) -/
def listFiles (fs : Fs) (arg : String) : List String :=
  let t := resolveRel arg
  if hasDotDot t then []
  else if existsAtB fs t then
    List.insertionSort pyStrLe
      (((allPaths fs).filter (fun q => decide (t <+: q ∧ q ≠ t))).map renderRel)
  else []

/-! ## Well-formedness of a staging area

These are the invariants any directory tree materialised on a real file
system satisfies; extraction and the tree operations preserve them. -/

/-- Well-formedness of an `Fs` as the image of a real directory tree:
file and directory paths are non-root, file paths are unique, no path is
both a file and a directory, and every ancestor of an existing path is a
directory. -/
def wfB (fs : Fs) : Bool :=
  decide ((∀ p ∈ fs.files.map Prod.fst, p ≠ []) ∧
    (∀ d ∈ fs.dirs, d ≠ []) ∧
    (fs.files.map Prod.fst).Nodup ∧
    (∀ d ∈ fs.dirs, d ∉ fs.files.map Prod.fst) ∧
    (∀ p ∈ fs.files.map Prod.fst ++ fs.dirs, ∀ a ∈ ancestors p, a ∈ fs.dirs))

/-- Every directory of the staging area has a regular file strictly below
it (no empty directories). -/
def noEmptyDirsB (fs : Fs) : Bool :=
  decide (∀ d ∈ fs.dirs, ∃ q ∈ fs.files.map Prod.fst, d <+: q ∧ d ≠ q)

/-! ## Concrete environments used by witnesses and counterexamples -/

/-- All optional providers importable; no archive file exists on disk. -/
def envAllProviders : Env :=
  ⟨true, true, true, fun _ => false, fun _ _ => .err ⟨.runtimeErr, "boom"⟩⟩

/-- pyzipper absent; other providers importable. -/
def envNoPyzipper : Env :=
  ⟨true, true, false, fun _ => false, fun _ _ => .err ⟨.runtimeErr, "boom"⟩⟩

/-- Every archive exists; decoding always raises `RuntimeError("boom")`. -/
def envDecodeFails : Env :=
  ⟨true, true, true, fun _ => true, fun _ _ => .err ⟨.runtimeErr, "boom"⟩⟩

/-- Every archive exists; decoding yields the single entry `f.txt`. -/
def envDecodeOk : Env :=
  ⟨true, true, true, fun _ => true, fun _ _ => .ok [(["f.txt"], [3])]⟩

/-! ## C1 — export/import round trip -/

/-- Claim C1: exporting any staging tree to any supported format and
re-importing reproduces the tree.  This fails for format `zip`: the source
builds the writer as `opener(output_path, 'w', compression=…, encryption=…)`
where `opener` is `zipfile.ZipFile` whenever no password is set (even with
pyzipper installed), and `zipfile.ZipFile` has no `encryption` parameter —
the constructor raises `TypeError` and no archive is produced, so the
round trip cannot even start.  This theorem evaluates the model at the
failing input: a single-file staging area, no export password, all
providers available. -/
theorem c1_zip_export_raises :
    exportArchive envAllProviders
        ⟨⟨[(["notes.txt"], [110, 111])], []⟩, none, none, false⟩ "out.zip" none
      = ([], .error ⟨.typeErr,
          "ZipFile.__init__() got an unexpected keyword argument 'encryption'"⟩) := rfl

/-! ## C2 — degraded ZIP export with a password but no pyzipper -/

/-- Claim C2: with a password set and pyzipper absent, ZIP export warns and
succeeds, producing an unencrypted archive.  The code does log
`"pyzipper not installed. Creating normal zip."` but then calls
`zipfile.ZipFile(output_path, 'w', compression=…, encryption=None)`, which
raises `TypeError`; the export fails instead of succeeding unencrypted. -/
theorem c2_degraded_zip_export_raises :
    exportArchive envNoPyzipper ⟨Fs.empty, some "x", none, false⟩ "out.zip" none
      = (["pyzipper not installed. Creating normal zip."],
         .error ⟨.typeErr,
          "ZipFile.__init__() got an unexpected keyword argument 'encryption'"⟩) := rfl

/-! ## C3 — path-escape rejection -/

/-- Claim C3: `_resolve_path` rejects inputs whose `..` segments resolve
outside the staging root.  It does not: for `"../../etc/passwd"` under root
`/tmp/abc` it computes the containment check (which is false), discards its
result (`if …: pass`), and returns the escaping joined path
`/tmp/abc/../../etc/passwd`, which resolves to `/etc/passwd` outside the
root.  The function's type has no error outcome at all. -/
theorem c3_resolve_path_escapes :
    resolvePathModel ["tmp", "abc"] "../../etc/passwd"
        = ["tmp", "abc", "..", "..", "etc", "passwd"] ∧
    containmentCheck ["tmp", "abc"] "../../etc/passwd" = false ∧
    lexResolve (resolvePathModel ["tmp", "abc"] "../../etc/passwd") = ["etc", "passwd"] ∧
    (["tmp", "abc"].isPrefixOf
        (lexResolve (resolvePathModel ["tmp", "abc"] "../../etc/passwd"))) = false := by
  decide

/-! ## C7 — `add` of a single file with a renaming destination -/

/-- Claim C7: adding a single file whose resolved destination is not an
existing directory and does not end in a separator places the file at the
destination path, with the destination's final segment as the possibly
renamed target name.  The code never renames: it sets
`final_dest = dest_path.parent`, creates that directory, and then — since
`final_dest.is_dir()` is necessarily true after the `mkdir` — copies to
`final_dest / source.name`, the source's base name.  At the failing input
`add("notes.txt", "renamed.txt")` the file lands at `notes.txt`, and
nothing exists at `renamed.txt`. -/
theorem c7_add_rename_ignored :
    addOp Fs.empty (some (.sfile "notes.txt" [7, 8])) "renamed.txt"
        = (⟨[(["notes.txt"], [7, 8])], []⟩, .ok ()) ∧
    fileAt (addOp Fs.empty (some (.sfile "notes.txt" [7, 8])) "renamed.txt").1
        ["renamed.txt"] = none := ⟨rfl, rfl⟩

/-! ## Helper lemmas about `import_archive` -/

/-- On a failing import of an existing archive, the returned session is the
input session with the source identity recorded and, exactly when the error
classifies as password-related, the known-encrypted flag set. -/
theorem importArchive_of_fail (env : Env) (st : SessionState) (path : String)
    (pw : Option String) (e : PyError) (hex : env.archiveExists path = true)
    (hfail : (importArchive env st path pw).2 = .error e) :
    importArchive env st path pw =
      ((if pwRelated e then
          { st with importedArchivePath := some path, isEncryptedImport := true }
        else { st with importedArchivePath := some path }), .error e) := by
  unfold importArchive at hfail ⊢
  simp only [hex, Bool.true_eq_false, if_false] at hfail ⊢
  cases h : importDispatch env st.staging path pw with
  | ok fs' => rw [h] at hfail; simp at hfail
  | error e' =>
    rw [h] at hfail
    have he : e' = e := by simpa using hfail
    subst he
    rfl

/-- A session whose known-encrypted flag is set keeps it set across any
`import_archive` call that fails (the flag is only cleared by a successful
retry in `decrypt`). -/
theorem importArchive_flag_stays (env : Env) (st : SessionState) (path : String)
    (pw : Option String) (h : st.isEncryptedImport = true) :
    (importArchive env st path pw).1.isEncryptedImport = true := by
  unfold importArchive
  split
  · exact h
  · cases hd : importDispatch env st.staging path pw with
    | ok fs' => exact h
    | error e =>
      by_cases hpw : pwRelated e = true
      · simp [hpw]
      · simp [hpw, h]

/-! ## C9 — source identity recorded before decoding -/

/-- Claim C9: `import_archive` records the archive path as the session's
source identity right after the existence check and before decoding, so
every failing import of an existing file — password-related or not —
leaves the identity set for a later retry. -/
theorem c9_identity_recorded (env : Env) (st : SessionState) (path : String)
    (pw : Option String) (e : PyError) (hex : env.archiveExists path = true)
    (hfail : (importArchive env st path pw).2 = .error e) :
    (importArchive env st path pw).1.importedArchivePath = some path := by
  rw [importArchive_of_fail env st path pw e hex hfail]
  split <;> rfl

/-- Witness for C9 at a concrete input: the archive exists, decoding raises
`RuntimeError("boom")`, and the failing import records the identity. -/
theorem c9_identity_recorded_witness :
    (importArchive envDecodeFails SessionState.init "a.zip" none).1.importedArchivePath
      = some "a.zip" :=
  c9_identity_recorded envDecodeFails SessionState.init "a.zip" none
    ⟨.runtimeErr, "boom"⟩ rfl rfl

/-! ## C5 — the known-encrypted flag versus the failure classification -/

/-- Claim C5 as stated is false: an import attempt can fail with an error
whose text matches the password-related classification while leaving the
flag unset.  Importing the non-existent file `encrypted.zip` raises
`FileNotFoundError("Archive not found: encrypted.zip")` — whose message
contains `"encrypted"`, so `pwRelated` classifies it password-related —
before the `try` block, so the flag stays `false`. -/
theorem c5_counterexample :
    (importArchive envAllProviders SessionState.init "encrypted.zip" none).2
        = .error ⟨.fileNotFound, "Archive not found: encrypted.zip"⟩ ∧
    pwRelated ⟨.fileNotFound, "Archive not found: encrypted.zip"⟩ = true ∧
    (importArchive envAllProviders SessionState.init "encrypted.zip" none).1.isEncryptedImport
        = false := ⟨rfl, rfl, rfl⟩

/-- Claim C5, amended: for import attempts that fail *after* the existence
check (inside the `try` block: dispatch, provider checks, decoding,
extraction), and starting from an unset flag, the known-encrypted flag ends
up set if and only if the error classifies as password-related; failures of
the existence check itself never touch the flag even when their message
matches the classification. -/
theorem c5_flag_iff_classified (env : Env) (st : SessionState) (path : String)
    (pw : Option String) (e : PyError) (hex : env.archiveExists path = true)
    (h0 : st.isEncryptedImport = false)
    (hfail : (importArchive env st path pw).2 = .error e) :
    ((importArchive env st path pw).1.isEncryptedImport = true ↔ pwRelated e = true) := by
  rw [importArchive_of_fail env st path pw e hex hfail]
  split
  · next hpw => simpa using hpw
  · next hpw => simp [h0, hpw]

/-- Witness for the amended C5: decoding an existing archive fails with
`RuntimeError("boom")` (classified password-related since it is a
`RuntimeError`), and the flag is set accordingly. -/
theorem c5_flag_iff_classified_witness :
    ((importArchive envDecodeFails SessionState.init "a.zip" none).1.isEncryptedImport = true
      ↔ pwRelated ⟨.runtimeErr, "boom"⟩ = true) :=
  c5_flag_iff_classified envDecodeFails SessionState.init "a.zip" none
    ⟨.runtimeErr, "boom"⟩ rfl rfl rfl

/-! ## C4 — retry of a failed encrypted import -/

/-- Claim C4: `decrypt` with a password fails with the invalid-state
`RuntimeError` whenever the session's known-encrypted flag is unset or no
source-archive identity exists; when both preconditions hold it wipes the
staging area completely, re-invokes `import_archive` on the recorded source
archive with the given password, and clears the known-encrypted flag if and
only if the retried import succeeds. -/
theorem c4_decrypt_retry (env : Env) (st : SessionState) (p : String) (hp : p ≠ "") :
    ((truthyStr st.importedArchivePath = false ∨ st.isEncryptedImport = false) →
      decrypt env st (some p) = (st, .error ⟨.runtimeErr, noRetryMsg⟩)) ∧
    (∀ src, st.importedArchivePath = some src → src ≠ "" →
      st.isEncryptedImport = true →
      (decrypt env st (some p) =
        (match (importArchive env { st with staging := Fs.empty } src (some p)).2 with
         | Except.ok _ =>
           ({ (importArchive env { st with staging := Fs.empty } src (some p)).1 with
               isEncryptedImport := false }, Except.ok ())
         | Except.error e =>
           ((importArchive env { st with staging := Fs.empty } src (some p)).1,
            Except.error e))) ∧
      ((decrypt env st (some p)).1.isEncryptedImport = false ↔
        ((importArchive env { st with staging := Fs.empty } src (some p)).2).isOk = true)) := by
  have ht : truthyStr (some p) = true := by simp [truthyStr, hp]
  constructor
  · intro hbad
    unfold decrypt
    rw [if_pos ht, if_pos hbad]
  · intro src hsrc hsrcne hflag
    have hcond : ¬(truthyStr st.importedArchivePath = false ∨ st.isEncryptedImport = false) := by
      simp [hsrc, truthyStr, hsrcne, hflag]
    have hd : decrypt env st (some p) =
        (match (importArchive env { st with staging := Fs.empty } src (some p)).2 with
         | Except.ok _ =>
           ({ (importArchive env { st with staging := Fs.empty } src (some p)).1 with
               isEncryptedImport := false }, Except.ok ())
         | Except.error e =>
           ((importArchive env { st with staging := Fs.empty } src (some p)).1,
            Except.error e)) := by
      unfold decrypt
      rw [if_pos ht, if_neg hcond, hsrc]
    refine ⟨hd, ?_⟩
    rw [hd]
    cases hres : (importArchive env { st with staging := Fs.empty } src (some p)).2 with
    | ok u => simp [hres]; rfl
    | error e =>
      have hstay := importArchive_flag_stays env { st with staging := Fs.empty } src
        (some p) hflag
      simp [hres, hstay, Except.isOk]; rfl

/-- Witness for C4 at a concrete input: a session with stale staged
content, a recorded source archive, and the known-encrypted flag set;
decoding now succeeds, so the retry replaces the staging contents with the
newly decoded entries and clears the flag. -/
theorem c4_decrypt_retry_witness :
    decrypt envDecodeOk ⟨⟨[(["junk"], [9])], []⟩, none, some "a.zip", true⟩ (some "pw")
      = (⟨⟨[(["f.txt"], [3])], []⟩, none, some "a.zip", false⟩, .ok ()) := by
  have h := (c4_decrypt_retry envDecodeOk
    ⟨⟨[(["junk"], [9])], []⟩, none, some "a.zip", true⟩ "pw" (by decide)).2
    "a.zip" rfl (by decide) rfl
  exact h.1.trans rfl

/-! ## Structural lemmas about the staging-area model -/

/-- A file path is a key of the lookup list exactly when `lookup` finds it. -/
theorem mem_keys_iff_lookup (files : List (List String × List Nat)) (p : List String) :
    (files.lookup p).isSome ↔ p ∈ files.map Prod.fst := by
  rw [List.lookup_isSome_iff]
  simp only [List.mem_map, beq_iff_eq]
  constructor
  · rintro ⟨q, hq, hbeq⟩
    exact ⟨q, hq, hbeq.symm⟩
  · rintro ⟨q, hq, hbeq⟩
    exact ⟨q, hq, hbeq.symm⟩

/-- Unpack the conjuncts of `wfB`. -/
theorem wfB_parts (fs : Fs) (hw : wfB fs = true) :
    (∀ p ∈ fs.files.map Prod.fst, p ≠ []) ∧
    (∀ d ∈ fs.dirs, d ≠ []) ∧
    (fs.files.map Prod.fst).Nodup ∧
    (∀ d ∈ fs.dirs, d ∉ fs.files.map Prod.fst) ∧
    (∀ p ∈ fs.files.map Prod.fst ++ fs.dirs, ∀ a ∈ ancestors p, a ∈ fs.dirs) :=
  of_decide_eq_true hw

/-- Membership in `ancestors p`: exactly the non-empty proper prefixes. -/
theorem ancestors_mem (p a : List String) :
    a ∈ ancestors p ↔ a ≠ [] ∧ a ≠ p ∧ a <+: p := by
  unfold ancestors
  simp only [List.mem_filterMap, List.mem_range]
  constructor
  · rintro ⟨n, hn, hsome⟩
    by_cases h0 : n = 0
    · rw [if_pos h0] at hsome; exact absurd hsome (by simp)
    · rw [if_neg h0] at hsome
      have ha : p.take n = a := by simpa using hsome
      have hlen : (p.take n).length = n := by
        rw [List.length_take]; omega
      subst ha
      refine ⟨?_, ?_, List.take_prefix n p⟩
      · intro hnil
        rw [hnil] at hlen; simp at hlen; omega
      · intro heq
        have : p.length ≤ n := by
          conv_lhs => rw [← heq]
          rw [hlen]
        omega
  · rintro ⟨hne, hnep, hpre⟩
    have hlt : a.length < p.length := by
      have hle := hpre.length_le
      rcases eq_or_lt_of_le hle with h | h
      · exact absurd (hpre.eq_of_length h) hnep
      · exact h
    refine ⟨a.length, hlt, ?_⟩
    have h0 : a.length ≠ 0 := by
      intro h; exact hne (List.eq_nil_of_length_eq_zero h)
    rw [if_neg h0]
    exact congrArg some ((List.prefix_iff_eq_take).1 hpre).symm

/-! ## C10 — only regular files are exported -/

/-- Every successful export emits exactly the staging area's regular-file
list as its entries. -/
theorem exportArchive_ok_entries (env : Env) (st : SessionState) (outName : String)
    (fmtO : Option String) (ws : List String) (ar : Archive)
    (h : exportArchive env st outName fmtO = (ws, .ok ar)) :
    ar.entries = st.staging.files := by
  simp only [exportArchive, exportZip] at h
  repeat' split at h
  all_goals simp only [Prod.mk.injEq, Except.ok.injEq] at h
  all_goals first
    | exact absurd h.2 (by simp)
    | rw [← h.2]

/-- Claim C10: in every supported export format, only the regular files
under the staging area produce archive entries; directories — including
empty directories — are never enumerated, so an empty directory present in
the staging tree is absent from the exported archive. -/
theorem c10_export_only_files (env : Env) (st : SessionState) (outName : String)
    (fmtO : Option String) (ws : List String) (ar : Archive)
    (hw : wfB st.staging = true)
    (h : exportArchive env st outName fmtO = (ws, .ok ar)) :
    ar.entries = st.staging.files ∧
    ∀ d ∈ st.staging.dirs, d ∉ ar.entries.map Prod.fst := by
  have he := exportArchive_ok_entries env st outName fmtO ws ar h
  refine ⟨he, ?_⟩
  intro d hd hmem
  rw [he] at hmem
  exact ((wfB_parts st.staging hw).2.2.2.1 d hd) hmem

/-- Witness for C10: a staging area holding one file `a.txt` and one empty
directory `emptyd`, exported as tar — the empty directory yields no entry. -/
theorem c10_export_only_files_witness :
    (⟨[(["a.txt"], [1])], false⟩ : Archive).entries = [(["a.txt"], [1])] ∧
    ["emptyd"] ∉ (⟨[(["a.txt"], [1])], false⟩ : Archive).entries.map Prod.fst := by
  have h := c10_export_only_files envAllProviders
    ⟨⟨[(["a.txt"], [1])], [["emptyd"]]⟩, none, none, false⟩ "o.tar" none
    [] ⟨[(["a.txt"], [1])], false⟩ (by decide) rfl
  exact ⟨h.1, h.2 ["emptyd"] (by decide)⟩

/-! ## C8 — `list_files` -/

instance : IsTotal String pyStrLe := ⟨fun a b => le_total a.data b.data⟩

instance : IsTrans String pyStrLe := ⟨fun _ _ _ h1 h2 => le_trans h1 h2⟩

/-- Claim C8: for every archive-relative path argument (one whose
resolution stays inside the staging root), `list_files` returns the
root-relative rendering of every descendant — files and directories — of
the resolved path, in sorted order (`pyStrLe` is Python's code-point
string order), and returns the empty sequence, not an error, when the
resolved path does not exist. -/
theorem c8_list_files (fs : Fs) (arg : String) (hw : wfB fs = true)
    (hin : hasDotDot (resolveRel arg) = false) :
    (existsAtB fs (resolveRel arg) = false → listFiles fs arg = []) ∧
    List.Sorted pyStrLe (listFiles fs arg) ∧
    (∀ s, s ∈ listFiles fs arg ↔ ∃ q, (fileAt fs q ≠ none ∨ q ∈ fs.dirs) ∧
      resolveRel arg <+: q ∧ q ≠ resolveRel arg ∧ s = renderRel q) := by
  have hkey : ∀ q, q ∈ fs.files.map Prod.fst ↔ fileAt fs q ≠ none := fun q =>
    (mem_keys_iff_lookup fs.files q).symm.trans Option.isSome_iff_ne_none
  have hnin : ¬(hasDotDot (resolveRel arg) = true) := by simp [hin]
  refine ⟨?_, ?_, ?_⟩
  · intro hex
    simp only [listFiles]
    rw [if_neg hnin, if_neg (by simp [hex])]
  · simp only [listFiles]
    rw [if_neg hnin]
    split
    · exact List.sorted_insertionSort pyStrLe _
    · exact List.sorted_nil
  · intro s
    simp only [listFiles]
    rw [if_neg hnin]
    by_cases hex : existsAtB fs (resolveRel arg) = true
    · rw [if_pos hex, (List.perm_insertionSort pyStrLe _).mem_iff, List.mem_map]
      constructor
      · rintro ⟨q, hqf, hs⟩
        rw [List.mem_filter] at hqf
        obtain ⟨hqall, hdec⟩ := hqf
        rw [decide_eq_true_eq] at hdec
        simp only [allPaths, List.mem_append] at hqall
        exact ⟨q, hqall.imp (fun h => (hkey q).1 h) id, hdec.1, hdec.2, hs.symm⟩
      · rintro ⟨q, hq, hpre, hne, hs⟩
        refine ⟨q, ?_, hs.symm⟩
        rw [List.mem_filter, decide_eq_true_eq]
        refine ⟨?_, hpre, hne⟩
        simp only [allPaths, List.mem_append]
        exact hq.imp (fun h => (hkey q).2 h) id
    · rw [if_neg hex]
      simp only [List.not_mem_nil, false_iff]
      rintro ⟨q, hq, hpre, hne, -⟩
      apply hex
      have htne : resolveRel arg ≠ [] := by
        intro h0
        rw [h0] at hex
        exact hex (by simp [existsAtB])
      have hanc : resolveRel arg ∈ ancestors q :=
        (ancestors_mem q (resolveRel arg)).2 ⟨htne, fun h => hne h.symm, hpre⟩
      have hqin : q ∈ fs.files.map Prod.fst ++ fs.dirs :=
        List.mem_append.2 (hq.imp (fun h => (hkey q).2 h) id)
      have hdir := (wfB_parts fs hw).2.2.2.2 q hqin (resolveRel arg) hanc
      simp [existsAtB, hdir]

/-- Witness for C8: a staging area with a file `a.txt`, a directory `b`,
and a file `b/f.txt`; listing the root returns all three paths sorted. -/
theorem c8_list_files_witness :
    List.Sorted pyStrLe
      (listFiles ⟨[(["b", "f.txt"], [1]), (["a.txt"], [2])], [["b"]]⟩ ".") ∧
    listFiles ⟨[(["b", "f.txt"], [1]), (["a.txt"], [2])], [["b"]]⟩ "."
      = ["a.txt", "b", "b/f.txt"] := by
  have h := c8_list_files ⟨[(["b", "f.txt"], [1]), (["a.txt"], [2])], [["b"]]⟩ "."
    (by decide) (by decide)
  exact ⟨h.2.1, by decide⟩

/-! ## C6 — the format resolver

Character- and component-level lemmas about the string model, leading to
the amended resolver claim. -/

/-- A successful association-list lookup comes from a list member. -/
theorem lookup_pair_mem : ∀ (l : List (Char × Char)) {c d : Char},
    l.lookup c = some d → (c, d) ∈ l
  | [], _, _, h => by simp [List.lookup] at h
  | p :: t, c, d, h => by
    rw [List.lookup] at h
    by_cases hc : (c == p.1) = true
    · rw [hc] at h
      have hd : p.2 = d := by simpa using h
      have hcp : c = p.1 := by simpa using hc
      rw [hcp, ← hd]
      exact List.mem_cons_self _ _
    · rw [Bool.not_eq_true] at hc
      rw [hc] at h
      exact List.mem_cons_of_mem p (lookup_pair_mem t h)

/-- Case analysis for `lowerChar`: it fixes its argument unless the
argument is one of the 26 upper-case letters. -/
theorem lowerChar_eq_or (c : Char) :
    lowerChar c = c ∨ (c, lowerChar c) ∈ lowerPairs := by
  unfold lowerChar
  cases h : lowerPairs.lookup c with
  | none => left; rfl
  | some d => right; exact lookup_pair_mem lowerPairs h

/-- `lowerChar` is idempotent. -/
theorem lowerChar_idem (c : Char) : lowerChar (lowerChar c) = lowerChar c := by
  rcases lowerChar_eq_or c with h | h
  · rw [h]; exact h
  · fin_cases h <;> decide

/-- `lowerChar` creates and destroys no `'.'`. -/
theorem lowerChar_eq_dot (c : Char) : lowerChar c = '.' ↔ c = '.' := by
  rcases lowerChar_eq_or c with h | h
  · rw [h]
  · fin_cases h <;> decide

/-- `lowerChar` creates and destroys no `'/'`. -/
theorem lowerChar_eq_slash (c : Char) : lowerChar c = '/' ↔ c = '/' := by
  rcases lowerChar_eq_or c with h | h
  · rw [h]
  · fin_cases h <;> decide

/-- Idempotence of the ASCII lowering on character lists. -/
theorem map_lower_idem (x : List Char) :
    (x.map lowerChar).map lowerChar = x.map lowerChar := by
  rw [List.map_map]
  exact List.map_congr_left (fun a _ => lowerChar_idem a)

/-- Idempotence of the ASCII lowering on strings. -/
theorem strLower_idem (s : String) : strLower (strLower s) = strLower s :=
  String.ext (map_lower_idem s.data)

/-- Lowering cannot produce the name `"."` from anything but `"."`. -/
theorem map_lower_eq_dot (x : List Char) (h : x.map lowerChar = ['.']) : x = ['.'] := by
  cases x with
  | nil => simp at h
  | cons c cs =>
    rw [List.map_cons] at h
    have h1 : lowerChar c = '.' := (List.cons.inj h).1
    have h2 : cs.map lowerChar = [] := (List.cons.inj h).2
    have hcs : cs = [] := by
      cases cs with
      | nil => rfl
      | cons d ds => simp at h2
    rw [hcs, (lowerChar_eq_dot c).1 h1]

/-- Lowering preserves slash-freedom. -/
theorem no_slash_map_lower (x : List Char) (h : '/' ∉ x) : '/' ∉ x.map lowerChar := by
  intro hm
  obtain ⟨a, ha, hla⟩ := List.mem_map.1 hm
  exact h (((lowerChar_eq_slash a).1 hla) ▸ ha)

/-- `splitSlash` never returns the empty list. -/
theorem splitSlash_ne_nil : ∀ l : List Char, splitSlash l ≠ []
  | [] => by simp [splitSlash]
  | c :: cs => by
    cases h : splitSlash cs with
    | nil => exact absurd h (splitSlash_ne_nil cs)
    | cons cur rest =>
      simp only [splitSlash, h]
      by_cases hc : c = '/' <;> simp [hc]

/-- No component produced by `splitSlash` contains a slash. -/
theorem splitSlash_no_slash : ∀ l : List Char, ∀ comp ∈ splitSlash l, '/' ∉ comp
  | [] => by
    intro comp hc
    simp [splitSlash] at hc
    simp [hc]
  | c :: cs => by
    intro comp hc
    have hrec := splitSlash_no_slash cs
    cases h : splitSlash cs with
    | nil => exact absurd h (splitSlash_ne_nil cs)
    | cons cur rest =>
      rw [h] at hrec
      simp only [splitSlash, h] at hc
      by_cases hslash : c = '/'
      · rw [if_pos hslash] at hc
        rcases List.mem_cons.1 hc with rfl | hm
        · simp
        · exact hrec comp hm
      · rw [if_neg hslash] at hc
        rcases List.mem_cons.1 hc with rfl | hm
        · intro hmem
          rcases List.mem_cons.1 hmem with heq | hm2
          · exact hslash heq.symm
          · exact hrec cur (List.mem_cons_self cur rest) hm2
        · exact hrec comp (List.mem_cons_of_mem cur hm)

/-- On a slash-free list `splitSlash` yields the single component. -/
theorem splitSlash_single : ∀ l : List Char, '/' ∉ l → splitSlash l = [l]
  | [] => fun _ => rfl
  | c :: cs => fun h => by
    have hcs : '/' ∉ cs := fun hm => h (List.mem_cons_of_mem c hm)
    have hc : ¬(c = '/') := fun hceq => h (by rw [hceq]; exact List.mem_cons_self '/' cs)
    simp only [splitSlash, splitSlash_single cs hcs]
    simp [hc]

/-- `splitSlash` commutes with the ASCII lowering. -/
theorem splitSlash_map_lower : ∀ l : List Char,
    splitSlash (l.map lowerChar) = (splitSlash l).map (List.map lowerChar)
  | [] => by simp [splitSlash]
  | c :: cs => by
    have ih := splitSlash_map_lower cs
    cases h : splitSlash cs with
    | nil => exact absurd h (splitSlash_ne_nil cs)
    | cons cur rest =>
      rw [List.map_cons]
      simp only [splitSlash, ih, h, List.map_cons]
      by_cases hc : c = '/'
      · have hlc : lowerChar c = '/' := (lowerChar_eq_slash c).2 hc
        simp [hc, hlc, show lowerChar '/' = '/' from by decide]
      · have hlc : ¬(lowerChar c = '/') := fun hl => hc ((lowerChar_eq_slash c).1 hl)
        simp [hc, hlc]

/-- `getLastD` of a list ending in `x` is `x`. -/
theorem getLastD_concat (x : List Char) (d : List Char) :
    ∀ l : List (List Char), (l ++ [x]).getLastD d = x
  | [] => rfl
  | y :: l => by
    rw [List.cons_append, List.getLastD_cons]
    exact getLastD_concat x y l

/-- `getLastD` commutes with `map` when the default is mapped too. -/
theorem getLastD_map (f : List Char → List Char) (d : List Char) :
    ∀ l : List (List Char), (l.map f).getLastD (f d) = f (l.getLastD d)
  | [] => rfl
  | y :: l => by
    rw [List.map_cons, List.getLastD_cons, List.getLastD_cons]
    exact getLastD_map f y l

/-- `getLastD` with default `[]` commutes with a nil-preserving `map`. -/
theorem getLastD_map_nil (f : List Char → List Char) (hf : f [] = [])
    (l : List (List Char)) : (l.map f).getLastD [] = f (l.getLastD []) := by
  conv_lhs => rw [← hf]
  rw [getLastD_map]

/-- The base name contains no slash. -/
theorem basename_no_slash (p : String) : '/' ∉ (basenameStr p).data := by
  unfold basenameStr
  have hne := splitSlash_ne_nil p.data
  have hmem : (splitSlash p.data).getLastD [] ∈ splitSlash p.data := by
    rw [List.getLastD_eq_getLast?, List.getLast?_eq_getLast _ hne]
    exact List.getLast_mem hne
  exact splitSlash_no_slash p.data _ hmem

/-- The base name of a slash-free string is the string itself. -/
theorem basename_single (s : String) (h : '/' ∉ s.data) : basenameStr s = s := by
  apply String.ext
  show (splitSlash s.data).getLastD [] = s.data
  rw [splitSlash_single s.data h]
  rfl

/-- Taking the base name is idempotent. -/
theorem basename_idem (p : String) : basenameStr (basenameStr p) = basenameStr p :=
  basename_single _ (basename_no_slash p)

/-- The base name commutes with the ASCII lowering. -/
theorem basename_lower (s : String) :
    basenameStr (strLower s) = strLower (basenameStr s) := by
  apply String.ext
  show (splitSlash (s.data.map lowerChar)).getLastD [] =
    ((splitSlash s.data).getLastD []).map lowerChar
  rw [splitSlash_map_lower]
  exact getLastD_map_nil (List.map lowerChar) rfl _

/-- When the base name is neither empty nor `"."`, the `pathlib` name equals
the base name (the last raw component survives the component filter). -/
theorem plNameChars_eq_basename (p : String) (h1 : (basenameStr p).data ≠ [])
    (h2 : (basenameStr p).data ≠ ['.']) : plNameChars p = (basenameStr p).data := by
  unfold plNameChars plParts
  have hne := splitSlash_ne_nil p.data
  have hsplit : (splitSlash p.data).dropLast ++ [(splitSlash p.data).getLast hne]
      = splitSlash p.data := List.dropLast_append_getLast hne
  have hbdata : (basenameStr p).data = (splitSlash p.data).getLast hne := by
    show (splitSlash p.data).getLastD [] = _
    rw [List.getLastD_eq_getLast?, List.getLast?_eq_getLast _ hne]
    rfl
  rw [← hsplit, List.filter_append, List.filter_cons]
  rw [hbdata] at h1 h2 ⊢
  rw [if_pos (by simp [h1, h2]), List.filter_nil]
  rw [getLastD_concat]

/-- `findIdx` over a mapped list with a compatible predicate. -/
theorem findIdx_map_eq (f : Char → Char) (p q : Char → Bool)
    (h : ∀ c, p (f c) = q c) :
    ∀ l : List Char, (l.map f).findIdx p = l.findIdx q
  | [] => rfl
  | c :: cs => by
    rw [List.map_cons, List.findIdx_cons, List.findIdx_cons, h c,
      findIdx_map_eq f p q h cs]

/-- The `pathlib` suffix computation commutes with the ASCII lowering. -/
theorem suffixChars_map_lower (l : List Char) :
    suffixChars (l.map lowerChar) = (suffixChars l).map lowerChar := by
  have hdot : ∀ c, ((lowerChar c == '.') : Bool) = (c == '.') := by
    intro c
    rw [Bool.eq_iff_iff]
    simp [lowerChar_eq_dot]
  simp only [suffixChars]
  rw [← List.map_reverse, findIdx_map_eq lowerChar _ _ hdot, List.length_map]
  split
  · rw [← List.map_take, ← List.map_reverse]
  · rfl

/-- `strEndsWith` in terms of list suffixes. -/
theorem strEndsWith_iff (s t : String) : strEndsWith s t = true ↔ t.data <:+ s.data :=
  List.isSuffixOf_iff_suffix

/-- A name cannot end in both `".tgz"` and `".tar.xz"`. -/
theorem tgz_tarxz_disjoint (n : String) (ht : strEndsWith n ".tgz" = true)
    (hx : strEndsWith n ".tar.xz" = true) : False := by
  rw [strEndsWith_iff] at ht hx
  rcases List.suffix_or_suffix_of_suffix ht hx with h | h
  · exact absurd h (by decide)
  · exact absurd h (by decide)

/-- Claim C6 as stated is false on two counts: the resolver's raw return
value is an arbitrary extension string, not a member of the closed tag
enumeration (`a.txt` yields `"txt"`), and on inputs whose final raw segment
is empty (trailing separator) or `"."` the result is not a function of that
segment (the fallback consults `pathlib`'s name, which differs from
`os.path.basename` there). -/
theorem c6_counterexample :
    getFormat "a.txt" = "txt" ∧ toTag "txt" = FormatTag.unknown ∧ "txt" ≠ "unknown" ∧
    getFormat "a/b.tar.gz/" = "gz" ∧ getFormat "b.tar.gz" = "tar.gz" ∧
    getFormat "" = "" ∧
    getFormat "a.zip/." = "zip" ∧ getFormat "." = "" := by decide

/-- Claim C6, amended: on every input whose final raw path segment
(`os.path.basename`) is non-empty and not `"."`, the resolver is a pure
function of that segment (conjunct 1), case-insensitive (conjunct 2:
lowering the segment does not change the result), and — after composing its
raw string result with the canonical reading `toTag`, which maps every
unrecognised string to `unknown` — it computes exactly the specification's
closed-enumeration resolver: composite suffixes first, then the last single
extension, `unknown` when no rule matches (conjunct 3). -/
theorem c6_resolver_amended (p : String)
    (h1 : basenameStr p ≠ "") (h2 : basenameStr p ≠ ".") :
    getFormat p = getFormat (basenameStr p) ∧
    getFormat p = getFormat (strLower (basenameStr p)) ∧
    toTag (getFormat p) = resolveSpec (basenameStr p) := by
  have hb1 : (basenameStr p).data ≠ [] := fun h => h1 (String.ext h)
  have hb2 : (basenameStr p).data ≠ ['.'] := fun h => h2 (String.ext h)
  have hbb : basenameStr (basenameStr p) = basenameStr p :=
    basename_idem p
  have hplp : plNameChars p = (basenameStr p).data :=
    plNameChars_eq_basename p hb1 hb2
  have hplb : plNameChars (basenameStr p) = (basenameStr p).data := by
    have := plNameChars_eq_basename (basenameStr p)
    rw [hbb] at this
    exact this hb1 hb2
  have hA : getFormat p = getFormat (basenameStr p) := by
    simp only [getFormat, hbb, hplp, hplb]
  have hbl : basenameStr (strLower (basenameStr p)) = strLower (basenameStr p) := by
    rw [basename_lower, hbb]
  have hpll : plNameChars (strLower (basenameStr p)) = (strLower (basenameStr p)).data := by
    have h1' : (basenameStr (strLower (basenameStr p))).data ≠ [] := by
      rw [hbl]
      show (basenameStr p).data.map lowerChar ≠ []
      intro h
      rcases (List.map_eq_nil_iff).1 h with h'
      exact hb1 h'
    have h2' : (basenameStr (strLower (basenameStr p))).data ≠ ['.'] := by
      rw [hbl]
      show (basenameStr p).data.map lowerChar ≠ ['.']
      intro h
      exact hb2 (map_lower_eq_dot _ h)
    have := plNameChars_eq_basename (strLower (basenameStr p)) h1' h2'
    rw [hbl] at this
    exact this
  have hfb : strLower ⟨(suffixChars ((strLower (basenameStr p)).data)).drop 1⟩
      = strLower ⟨(suffixChars ((basenameStr p).data)).drop 1⟩ := by
    apply String.ext
    show ((suffixChars ((basenameStr p).data.map lowerChar)).drop 1).map lowerChar
      = ((suffixChars ((basenameStr p).data)).drop 1).map lowerChar
    rw [suffixChars_map_lower, List.map_drop, map_lower_idem, ← List.map_drop]
  have hB : getFormat p = getFormat (strLower (basenameStr p)) := by
    simp only [getFormat, hplp, hpll, hbl, strLower_idem, hfb]
  refine ⟨hA, hB, ?_⟩
  rw [hA]
  unfold getFormat resolveSpec
  rw [hbb, hplb]
  by_cases hg : strEndsWith (strLower (basenameStr p)) ".tar.gz" = true
  · rw [if_pos hg, if_pos (by simp [hg])]
    decide
  · by_cases hx : strEndsWith (strLower (basenameStr p)) ".tar.xz" = true
    · have ht : ¬(strEndsWith (strLower (basenameStr p)) ".tgz" = true) :=
        fun ht => tgz_tarxz_disjoint _ ht hx
      rw [if_neg hg, if_pos hx, if_neg (by simp [hg, ht]), if_pos hx]
      decide
    · by_cases ht : strEndsWith (strLower (basenameStr p)) ".tgz" = true
      · rw [if_neg hg, if_neg hx, if_pos ht, if_pos (by simp [ht])]
        decide
      · rw [if_neg hg, if_neg hx, if_neg ht, if_neg (by simp [hg, ht]), if_neg hx]
        have hsfx : strLower ⟨(suffixChars ((basenameStr p).data)).drop 1⟩
            = (⟨(suffixChars ((strLower (basenameStr p)).data)).drop 1⟩ : String) := by
          apply String.ext
          show ((suffixChars ((basenameStr p).data)).drop 1).map lowerChar
            = (suffixChars ((basenameStr p).data.map lowerChar)).drop 1
          rw [suffixChars_map_lower, ← List.map_drop]
        rw [hsfx]

/-- Witness for the amended C6 at a concrete input: an upper-case composite
suffix inside a directory prefix. -/
theorem c6_resolver_amended_witness :
    getFormat "dir/A.TAR.GZ" = getFormat (basenameStr "dir/A.TAR.GZ") ∧
    getFormat "dir/A.TAR.GZ" = getFormat (strLower (basenameStr "dir/A.TAR.GZ")) ∧
    toTag (getFormat "dir/A.TAR.GZ") = resolveSpec (basenameStr "dir/A.TAR.GZ") :=
  c6_resolver_amended "dir/A.TAR.GZ" (by decide) (by decide)

/-! ## Round-trip correctness of extraction

These lemmas support the analysis of C1: for the formats whose export path
is not broken (tar family, 7z), the entry list the export produces
reconstructs the staging area exactly when re-imported into a fresh
session. -/

/-- Writing a fresh key appends it. -/
theorem setFile_of_not_mem (files : List (List String × List Nat)) (p : List String)
    (c : List Nat) (h : p ∉ files.map Prod.fst) : setFile files p c = files ++ [(p, c)] := by
  unfold setFile
  rw [if_neg]
  intro hs
  exact h ((mem_keys_iff_lookup files p).1 hs)

/-- Membership in `insertDirs`. -/
theorem insertDirs_mem : ∀ (new ds : List (List String)) (d : List String),
    d ∈ insertDirs ds new ↔ d ∈ ds ∨ d ∈ new
  | [], ds, d => by simp [insertDirs]
  | x :: new, ds, d => by
    unfold insertDirs
    rw [List.foldl_cons]
    have ih := insertDirs_mem new (if x ∈ ds then ds else ds ++ [x]) d
    unfold insertDirs at ih
    rw [ih]
    by_cases hx : x ∈ ds
    · rw [if_pos hx]
      constructor
      · rintro (h | h)
        · exact Or.inl h
        · exact Or.inr (List.mem_cons_of_mem x h)
      · rintro (h | h)
        · exact Or.inl h
        · rcases List.mem_cons.1 h with rfl | h2
          · exact Or.inl hx
          · exact Or.inr h2
    · rw [if_neg hx]
      rw [List.mem_append, List.mem_singleton, List.mem_cons]
      tauto

/-- The extraction loop, run over entries whose keys are non-empty,
duplicate-free, and pairwise prefix-incomparable, starting from a staging
area that holds exactly the already-processed entries: it succeeds, appends
the new entries in order, and grows the directory set to the proper
prefixes of all processed keys. -/
theorem extractAll_fold : ∀ (todo done : List (List String × List Nat)) (fs : Fs),
    fs.files = done →
    (∀ d, d ∈ fs.dirs ↔ (d ≠ [] ∧ ∃ q ∈ done.map Prod.fst, d <+: q ∧ d ≠ q)) →
    (∀ p ∈ (done ++ todo).map Prod.fst, p ≠ []) →
    ((done ++ todo).map Prod.fst).Nodup →
    List.Pairwise (fun p q => ¬(p <+: q) ∧ ¬(q <+: p)) ((done ++ todo).map Prod.fst) →
    ∃ fs', extractAll fs todo = some fs' ∧ fs'.files = done ++ todo ∧
      (∀ d, d ∈ fs'.dirs ↔ (d ≠ [] ∧ ∃ q ∈ (done ++ todo).map Prod.fst, d <+: q ∧ d ≠ q))
  | [], done, fs, hf, hd, _, _, _ =>
    ⟨fs, rfl, by simpa using hf, by simpa using hd⟩
  | (p, c) :: todo, done, fs, hf, hd, hne, hnd, hpw => by
    have hpmem : p ∈ (done ++ (p, c) :: todo).map Prod.fst := by simp
    have hpne : p ≠ [] := hne p hpmem
    rw [List.map_append, List.map_cons] at hnd hpw
    have hcross := (List.pairwise_append.1 hpw).2.2
    have hpnotdone : p ∉ done.map Prod.fst := by
      intro hp
      exact (List.nodup_append.1 hnd).2.2 hp (List.mem_cons_self _ _)
    have hanc_false : ((ancestors p).any (fun a => (fileAt fs a).isSome)) = false := by
      rw [Bool.eq_false_iff]
      intro hany
      obtain ⟨a, ha, hsome⟩ := List.any_eq_true.1 hany
      have hak : a ∈ done.map Prod.fst := by
        rw [← hf]
        exact (mem_keys_iff_lookup fs.files a).1 hsome
      obtain ⟨hane, hanep, hapre⟩ := (ancestors_mem p a).1 ha
      exact (hcross a hak p (List.mem_cons_self _ _)).1 hapre
    have hdir_false : isDirB fs p = false := by
      rw [isDirB, Bool.or_eq_false_iff]
      refine ⟨by simpa using hpne, ?_⟩
      rw [decide_eq_false_iff_not]
      intro hpd
      obtain ⟨-, q, hq, hpre, hne'⟩ := (hd p).1 hpd
      exact (hcross q hq p (List.mem_cons_self _ _)).2 hpre
    have hwrite : writeEntry fs p c = some
        ⟨done ++ [(p, c)], insertDirs fs.dirs (ancestors p)⟩ := by
      unfold writeEntry
      rw [if_neg (by simpa using hpne), if_neg (by simp [hanc_false]),
        if_neg (by simp [hdir_false]), hf,
        setFile_of_not_mem done p c hpnotdone]
    have hd1 : ∀ d, d ∈ insertDirs fs.dirs (ancestors p) ↔
        (d ≠ [] ∧ ∃ q ∈ (done ++ [(p, c)]).map Prod.fst, d <+: q ∧ d ≠ q) := by
      intro d
      rw [insertDirs_mem, hd d, ancestors_mem]
      rw [List.map_append, List.map_cons, List.map_nil]
      constructor
      · rintro (⟨hdne, q, hq, h1, h2⟩ | ⟨hdne, hdp, hpre⟩)
        · exact ⟨hdne, q, List.mem_append.2 (Or.inl hq), h1, h2⟩
        · exact ⟨hdne, p, List.mem_append.2 (Or.inr (List.mem_singleton.2 rfl)), hpre, hdp⟩
      · rintro ⟨hdne, q, hq, h1, h2⟩
        rcases List.mem_append.1 hq with hq | hq
        · exact Or.inl ⟨hdne, q, hq, h1, h2⟩
        · rw [List.mem_singleton.1 hq] at h1 h2
          exact Or.inr ⟨hdne, h2, h1⟩
    have hassoc : (done ++ [(p, c)]) ++ todo = done ++ (p, c) :: todo := by simp
    have ihne : ∀ q ∈ ((done ++ [(p, c)]) ++ todo).map Prod.fst, q ≠ [] := by
      rw [hassoc]; exact hne
    have ihnd : (((done ++ [(p, c)]) ++ todo).map Prod.fst).Nodup := by
      rw [hassoc, List.map_append, List.map_cons]; exact hnd
    have ihpw : List.Pairwise (fun a b => ¬(a <+: b) ∧ ¬(b <+: a))
        (((done ++ [(p, c)]) ++ todo).map Prod.fst) := by
      rw [hassoc, List.map_append, List.map_cons]; exact hpw
    obtain ⟨fs', hex, hfiles, hdirs⟩ := extractAll_fold todo (done ++ [(p, c)])
      ⟨done ++ [(p, c)], insertDirs fs.dirs (ancestors p)⟩ rfl hd1 ihne ihnd ihpw
    refine ⟨fs', ?_, by rw [hfiles, hassoc], ?_⟩
    · show List.foldlM (fun f e => writeEntry f e.1 e.2) fs ((p, c) :: todo) = some fs'
      rw [List.foldlM_cons, hwrite]
      exact hex
    · intro d
      rw [hdirs d, hassoc]

/-- Export/import round trip at the staging level: extracting the exported
entry list of a well-formed staging area with no empty directories into a
fresh staging area succeeds and reproduces the same files (with contents)
and the same directory set. -/
theorem roundtrip_extract (fs : Fs) (hw : wfB fs = true) (hne : noEmptyDirsB fs = true) :
    ∃ fs', extractAll Fs.empty fs.files = some fs' ∧ fs'.files = fs.files ∧
      ∀ d, d ∈ fs'.dirs ↔ d ∈ fs.dirs := by
  obtain ⟨hk_ne, hd_ne, hnd, hdisj, hclosed⟩ := wfB_parts fs hw
  have hnoempty : ∀ d ∈ fs.dirs, ∃ q ∈ fs.files.map Prod.fst, d <+: q ∧ d ≠ q :=
    of_decide_eq_true hne
  have hincomp : ∀ p ∈ fs.files.map Prod.fst, ∀ q ∈ fs.files.map Prod.fst,
      p ≠ q → ¬(p <+: q) := by
    intro p hp q hq hpq hpre
    have hpa : p ∈ ancestors q := (ancestors_mem q p).2 ⟨hk_ne p hp, hpq, hpre⟩
    have hpd : p ∈ fs.dirs := hclosed q (List.mem_append.2 (Or.inl hq)) p hpa
    exact hdisj p hpd hp
  have hpw : List.Pairwise (fun p q => ¬(p <+: q) ∧ ¬(q <+: p)) (fs.files.map Prod.fst) := by
    refine List.Pairwise.imp_of_mem ?_ hnd
    intro a b ha hb hab
    exact ⟨hincomp a ha b hb hab, hincomp b hb a ha (fun h => hab h.symm)⟩
  obtain ⟨fs', hex, hfiles, hdirs⟩ := extractAll_fold fs.files [] Fs.empty rfl
    (by simp [Fs.empty]) (by simpa using hk_ne) (by simpa using hnd) (by simpa using hpw)
  refine ⟨fs', hex, by simpa using hfiles, ?_⟩
  intro d
  rw [hdirs d]
  constructor
  · rintro ⟨hdne, q, hq, hpre, hne'⟩
    have hq' : q ∈ fs.files.map Prod.fst := by simpa using hq
    exact hclosed q (List.mem_append.2 (Or.inl hq')) d
      ((ancestors_mem q d).2 ⟨hdne, hne', hpre⟩)
  · intro hdin
    obtain ⟨q, hq, hpre, hne'⟩ := hnoempty d hdin
    exact ⟨hd_ne d hdin, q, by simpa using hq, hpre, hne'⟩

/-- Session-level round trip for the formats whose export path works (the
tar family here): exporting a well-formed staging area with no empty
directories, then importing the resulting archive (decoded faithfully by
the codec into the same entry list) into a fresh session, reproduces the
file set with contents and the directory set exactly. -/
theorem session_roundtrip (env : Env) (st : SessionState) (outName : String)
    (ws : List String) (ar : Archive)
    (hw : wfB st.staging = true) (hned : noEmptyDirsB st.staging = true)
    (hexp : exportArchive env st outName none = (ws, .ok ar))
    (hexists : env.archiveExists outName = true)
    (hfmt : getFormat outName = "tar" ∨ getFormat outName = "tar.gz" ∨
      getFormat outName = "tar.xz")
    (hdec : env.decode outName none = .ok ar.entries) :
    ∃ st', importArchive env SessionState.init outName none = (st', .ok ()) ∧
      st'.staging.files = st.staging.files ∧
      (∀ d, d ∈ st'.staging.dirs ↔ d ∈ st.staging.dirs) := by
  have hent := exportArchive_ok_entries env st outName none ws ar hexp
  obtain ⟨fs', hex, hfiles, hdirs⟩ := roundtrip_extract st.staging hw hned
  have hdisp : importDispatch env SessionState.init.staging outName none = .ok fs' := by
    unfold importDispatch runDecode
    have hz : ¬((getFormat outName == "zip") = true) := by
      rcases hfmt with h | h | h <;> simp [h]
    have ht : ((getFormat outName == "tar" || getFormat outName == "tar.gz" ||
        getFormat outName == "gz" || getFormat outName == "tar.xz" ||
        getFormat outName == "xz") = true) := by
      rcases hfmt with h | h | h <;> simp [h]
    rw [if_neg hz, if_pos ht, hdec, hent]
    show (match extractAll Fs.empty st.staging.files with
      | some fs2 => Except.ok fs2
      | none =>
        Except.error (⟨ErrKind.osErr, "extraction failed"⟩ : PyError)) = Except.ok fs'
    rw [hex]
  refine ⟨{ SessionState.init with importedArchivePath := some outName, staging := fs' },
    ?_, by rw [hfiles], fun d => hdirs d⟩
  unfold importArchive
  rw [if_neg (by simp [hexists])]
  rw [hdisp]

end NerconeArchiver
